import Mathlib

/-!
Shallow embedding of `src/mp4-generator.mjs` (image-to-mp4 slideshow
generator).  Pure computations (dimension harmonization, path handling,
ffmpeg option construction) are translated directly; the effectful
pipeline (`mapToInterface`, the normalization loop, `convertImagesToMp4`,
`mp4Generator`) is modelled by explicit state passing against a `World`
of oracles standing for the external collaborators (Sharp metadata
extraction, Sharp file conversion, `fs.renameSync`, the ffmpeg process),
together with an explicit trace of I/O events.  JavaScript numbers
holding pixel dimensions are modelled as `Nat`; `Math.ceil` over the
rational `scaleW / width * height` is modelled by exact ceiling
division.  Errors are the `Error` message strings the source constructs.
-/

namespace Mp4Gen

/-- `ImgFile`: the interface produced by `mapToInterface`
(path, height, width, format — format is the string Sharp reports). -/
structure ImgFile where
  path : String
  height : Nat
  width : Nat
  format : String
deriving DecidableEq, Repr

instance : Inhabited ImgFile := ⟨⟨"", 0, 0, ""⟩⟩

/-- A caller-supplied image record: only `path` is read by the module;
`extra` stands for every other caller-supplied field. -/
structure UnmappedImgFile (α : Type) where
  path : String
  extra : α
deriving DecidableEq, Repr

/-- `getImgDir`'s core: JavaScript `path.substr(0, path.lastIndexOf('/'))`
on the character list.  When the last `'/'` sits at index `k ≥ 1` the
result is the first `k` characters; when it sits at index 0, or when
there is no `'/'` at all (`lastIndexOf` returns `-1`, and
`substr(0, -1)` is `""`), the result is empty. -/
def beforeLastSlash : List Char → List Char
  | [] => []
  | c :: cs => if '/' ∈ cs then c :: beforeLastSlash cs else []

/-- Source `getImgDir`: the path of the directory holding the image,
i.e. the substring of `path` strictly before its last `'/'`
(empty when no `'/'` occurs). -/
def getImgDir (path : String) : String :=
  ⟨beforeLastSlash path.data⟩

/-- Source `isJpeg`: compares the format property assigned by Sharp
against the literal string `"JPEG"` (case-sensitive `===`). -/
def isJpeg (img : ImgFile) : Bool :=
  img.format == "JPEG"

/-- Exact ceiling of the rational `(scaleW / width) * height`, embedding
`Math.ceil((scaleW / file.width) * file.height)` (the source computes it
in JS number arithmetic; we model the exact value). -/
def ceilScale (scaleW width height : Nat) : Nat :=
  (scaleW * height + width - 1) / width

/-- The harmonized mp4 dimensions returned by `getMp4Dimensions`. -/
structure Dimensions where
  scaleW : Nat
  padH : Nat
  padW : Nat
deriving DecidableEq, Repr

/-- Source `getMp4Dimensions`: `scaleW` by the reduce
`(min, file) => file.width < min || min === 0 ? file.width : min` with
initial accumulator `0`; `padH` by the reduce taking the largest scaled
height, plus 2; `padW = scaleW + 2`. -/
def getMp4Dimensions (imgFiles : List ImgFile) : Dimensions :=
  let scaleW := imgFiles.foldl
    (fun min file => if file.width < min ∨ min = 0 then file.width else min) 0
  let padH := imgFiles.foldl
    (fun max file =>
      let scaledH := ceilScale scaleW file.width file.height
      if scaledH > max then scaledH else max) 0 + 2
  { scaleW := scaleW, padH := padH, padW := scaleW + 2 }

/-- One video filter entry handed to fluent-ffmpeg's `videoFilters`. -/
structure FfmpegFilter where
  filter : String
  options : String
deriving DecidableEq, Repr

/-- The observable configuration state of a fluent-ffmpeg command:
the input pattern it was constructed with, and the options the module
sets on it. -/
structure FfmpegCmd where
  input : String
  inputFPSVal : Option String := none
  videoCodecVal : Option String := none
  videoFiltersVal : List FfmpegFilter := []
  audioDisabled : Bool := false
  outputPathVal : Option String := none
deriving DecidableEq, Repr

/-- `ffmpeg(input)`: a fresh command over the given input pattern. -/
def ffmpegNew (input : String) : FfmpegCmd :=
  { input := input }

/-- Fluent setter `.inputFPS(v)`. -/
def FfmpegCmd.inputFPS (c : FfmpegCmd) (v : String) : FfmpegCmd :=
  { c with inputFPSVal := some v }

/-- Fluent setter `.videoCodec(v)`. -/
def FfmpegCmd.videoCodec (c : FfmpegCmd) (v : String) : FfmpegCmd :=
  { c with videoCodecVal := some v }

/-- Fluent `.videoFilters(fs)` (fluent-ffmpeg accumulates filters). -/
def FfmpegCmd.videoFilters (c : FfmpegCmd) (fs : List FfmpegFilter) : FfmpegCmd :=
  { c with videoFiltersVal := c.videoFiltersVal ++ fs }

/-- Fluent `.noAudio()`. -/
def FfmpegCmd.dropAudioTrack (c : FfmpegCmd) : FfmpegCmd :=
  { c with audioDisabled := true }

/-- Fluent `.output(p)`. -/
def FfmpegCmd.output (c : FfmpegCmd) (p : String) : FfmpegCmd :=
  { c with outputPathVal := some p }

/-- Source `setFfmpegInputOptions`: fixed input FPS `1/3`, codec
`libx264`, the filter chain scale → pad → format, and no audio. -/
def setFfmpegInputOptions (ffmpegCmd : FfmpegCmd) (scaleW padW padH : Nat) : FfmpegCmd :=
  (((ffmpegCmd.inputFPS "1/3").videoCodec "libx264").videoFilters
    [ { filter := "scale", options := toString scaleW ++ ":-1" },
      { filter := "pad",
        options := toString padW ++ ":" ++ toString padH ++ ":1:-1:black" },
      { filter := "format", options := "yuv420p" } ]).dropAudioTrack

/-- Metadata as reported by Sharp's `metadata()` for one file. -/
structure Metadata where
  width : Nat
  height : Nat
  format : String
deriving DecidableEq, Repr

/-- The external world the module runs against: outcomes of the Sharp
metadata call, the Sharp `toFile` conversion, `fs.renameSync`, and the
ffmpeg process run.  An `.error` value is the underlying cause text. -/
structure World where
  metadataOf : String → Except String Metadata
  convertResult : String → String → Except String Unit
  renameResult : String → String → Except String Unit
  encodeResult : String → String → Except String Unit

/-- One observable I/O action performed by the pipeline. -/
inductive Event where
  | metadata (path : String)
  | convert (src dest : String)
  | rename (src dest : String)
  | encode (cmd : FfmpegCmd)
deriving DecidableEq, Repr

/-- Source path of a per-image file operation, if the event is one. -/
def eventSrc : Event → Option String
  | .convert src _ => some src
  | .rename src _ => some src
  | _ => none

/-- Destination path of a per-image file operation, if the event is one. -/
def eventDest : Event → Option String
  | .convert _ dest => some dest
  | .rename _ dest => some dest
  | _ => none

/-- Collect a list of `Except` results: the value list when all are
`.ok`, otherwise the first `.error` (`Promise.all`, in list order). -/
def exceptAll : List (Except String ImgFile) → Except String (List ImgFile)
  | [] => .ok []
  | .error e :: _ => .error e
  | .ok x :: rest => (exceptAll rest).map (fun xs => x :: xs)

/-- The per-file body of `mapToInterface`: call Sharp's `metadata()` on
the path and build the `ImgFile`; a Sharp failure is wrapped as
`Error getting image metadata from Sharp: cause`. -/
def toImgFileResult (w : World) (path : String) : Except String ImgFile :=
  match w.metadataOf path with
  | .ok metadata =>
      .ok { path := path, height := metadata.height,
            width := metadata.width, format := metadata.format }
  | .error err => .error ("Error getting image metadata from Sharp: " ++ err)

/-- Source `mapToInterface`: for each caller record, read only its
`path` and build the `ImgFile` from the Sharp metadata.  First
component: the metadata I/O events (one per file, all launched by
`Promise.all`). -/
def mapToInterface (w : World) (unmappedImgFiles : List (UnmappedImgFile α)) :
    List Event × Except String (List ImgFile) :=
  (unmappedImgFiles.map (fun file => Event.metadata file.path),
   exceptAll (unmappedImgFiles.map (fun file => toImgFileResult w file.path)))

/-- Source `convertFileToJpegAndRename`: Sharp re-encode of `imgPath`
into `imgDir/filename.jpg`; a failure is wrapped as
`Error converting image to jpeg: cause`. -/
def convertFileToJpegAndRename (w : World) (imgPath imgDir : String) (filename : Nat) :
    Event × Except String Unit :=
  (Event.convert imgPath (imgDir ++ "/" ++ toString filename ++ ".jpg"),
   match w.convertResult imgPath (imgDir ++ "/" ++ toString filename ++ ".jpg") with
   | .ok _ => .ok ()
   | .error err => .error ("Error converting image to jpeg: " ++ err))

/-- Source `renameJpeg`: `fs.renameSync(imgPath, imgDir/filename.jpg)`;
a failure surfaces the raw `fs` error unmodified. -/
def renameJpeg (w : World) (imgPath imgDir : String) (filename : Nat) :
    Event × Except String Unit :=
  (Event.rename imgPath (imgDir ++ "/" ++ toString filename ++ ".jpg"),
   w.renameResult imgPath (imgDir ++ "/" ++ toString filename ++ ".jpg"))

/-- One iteration of the `for` loop in `mp4Generator`: image at 0-based
position `i` gets filename `i + 1`; non-JPEG images are re-encoded,
JPEG images are renamed. -/
def stepRun (w : World) (imgDir : String) (i : Nat) (file : ImgFile) :
    Event × Except String Unit :=
  if ¬ isJpeg file then
    convertFileToJpegAndRename w file.path imgDir (i + 1)
  else
    renameJpeg w file.path imgDir (i + 1)

/-- The `for (let i = 0; ...)` normalization loop of `mp4Generator`,
started at loop counter `i`: processes images in order, stopping at the
first failing step (a thrown error aborts the loop). -/
def normalizeLoop (w : World) (imgDir : String) : List ImgFile → Nat → List Event × Except String Unit
  | [], _ => ([], .ok ())
  | file :: rest, i =>
    match stepRun w imgDir i file with
    | (ev, .ok _) =>
      let r := normalizeLoop w imgDir rest (i + 1)
      (ev :: r.1, r.2)
    | (ev, .error e) => ([ev], .error e)

/-- Source `convertImagesToMp4`: derive dimensions, build the ffmpeg
command over input pattern `imgDir/%d.jpg`, set the options, set the
output path and run; a process failure is wrapped as
`Error converting images to slideshow: cause`. -/
def convertImagesToMp4 (w : World) (imgFiles : List ImgFile) (imgDir outputFilePath : String) :
    List Event × Except String Unit :=
  let dims := getMp4Dimensions imgFiles
  let ffmpegCmd := ffmpegNew (imgDir ++ "/%d.jpg")
  let cmd := (setFfmpegInputOptions ffmpegCmd dims.scaleW dims.padW dims.padH).output outputFilePath
  ([Event.encode cmd],
   match w.encodeResult (imgDir ++ "/%d.jpg") outputFilePath with
   | .ok _ => .ok ()
   | .error err => .error ("Error converting images to slideshow: " ++ err))

/-- Source `mp4Generator`: validate non-emptiness, map to the interface,
derive the working directory from the first image's path, run the
normalization loop, then run ffmpeg.  Returns the I/O event trace and
the result. -/
def mp4Generator (w : World) (unmappedImgFiles : List (UnmappedImgFile α)) (outputFilePath : String) :
    List Event × Except String Unit :=
  if unmappedImgFiles.length < 1 then
    ([], .error "No images selected.")
  else
    match mapToInterface w unmappedImgFiles with
    | (mEvs, .error e) => (mEvs, .error e)
    | (mEvs, .ok imgFiles) =>
      let imgDir := getImgDir imgFiles.headI.path
      match normalizeLoop w imgDir imgFiles 0 with
      | (nEvs, .error e) => (mEvs ++ nEvs, .error e)
      | (nEvs, .ok _) =>
        let r := convertImagesToMp4 w imgFiles imgDir outputFilePath
        (mEvs ++ nEvs ++ r.1, r.2)

/-! ### Pure helper lemmas about the dimension folds -/

/-- The `scaleW` reduce of the source, as a standalone fold. -/
def jsMinFold (l : List ImgFile) (a : Nat) : Nat :=
  l.foldl (fun min file => if file.width < min ∨ min = 0 then file.width else min) a

theorem getMp4Dimensions_scaleW_def (l : List ImgFile) :
    (getMp4Dimensions l).scaleW = jsMinFold l 0 := rfl

theorem getMp4Dimensions_padW_def (l : List ImgFile) :
    (getMp4Dimensions l).padW = (getMp4Dimensions l).scaleW + 2 := rfl

theorem getMp4Dimensions_padH_def (l : List ImgFile) :
    (getMp4Dimensions l).padH =
      l.foldl (fun max file =>
        let scaledH := ceilScale (jsMinFold l 0) file.width file.height
        if scaledH > max then scaledH else max) 0 + 2 := rfl

theorem jsMinFold_pos_eq_min (l : List ImgFile) :
    ∀ a : Nat, 0 < a → (∀ f ∈ l, 0 < f.width) →
      jsMinFold l a = l.foldl (fun min file => Nat.min min file.width) a := by
  induction l with
  | nil => intro a _ _; rfl
  | cons f fs ih =>
    intro a ha hl
    have hf : 0 < f.width := hl f (List.mem_cons_self f fs)
    have hstep : (if f.width < a ∨ a = 0 then f.width else a) = Nat.min a f.width := by
      rcases Nat.lt_or_ge f.width a with h | h
      · simp [h, Nat.min_eq_right (Nat.le_of_lt h)]
      · have hna : ¬ (f.width < a ∨ a = 0) := by omega
        simp [hna, Nat.min_eq_left h]
    show jsMinFold fs (if f.width < a ∨ a = 0 then f.width else a)
        = fs.foldl (fun min file => Nat.min min file.width) (Nat.min a f.width)
    rw [hstep]
    exact ih (Nat.min a f.width) (lt_min ha hf) (fun g hg => hl g (List.mem_cons_of_mem f hg))

theorem foldl_min_le_start (l : List Nat) : ∀ a : Nat, l.foldl Nat.min a ≤ a := by
  induction l with
  | nil => intro a; exact Nat.le_refl a
  | cons x xs ih =>
    intro a
    exact Nat.le_trans (ih (Nat.min a x)) (Nat.min_le_left a x)

theorem foldl_min_le_mem (l : List Nat) :
    ∀ a x : Nat, x ∈ l → l.foldl Nat.min a ≤ x := by
  induction l with
  | nil => intro a x hx; cases hx
  | cons y ys ih =>
    intro a x hx
    rcases List.mem_cons.mp hx with h | h
    · subst h
      exact Nat.le_trans (foldl_min_le_start ys (Nat.min a x)) (Nat.min_le_right a x)
    · exact ih (Nat.min a y) x h

theorem foldl_min_mem (l : List Nat) :
    ∀ a : Nat, l.foldl Nat.min a = a ∨ l.foldl Nat.min a ∈ l := by
  induction l with
  | nil => intro a; exact Or.inl rfl
  | cons x xs ih =>
    intro a
    rcases ih (Nat.min a x) with h | h
    · rcases Nat.le_total a x with hax | hax
      · refine Or.inl ?_
        rw [List.foldl_cons, h]
        exact Nat.min_eq_left hax
      · refine Or.inr ?_
        rw [List.foldl_cons, h]
        have hx : Nat.min a x = x := Nat.min_eq_right hax
        rw [hx]
        exact List.mem_cons_self x xs
    · exact Or.inr (List.mem_cons_of_mem x h)

/-- The source's `scaleW` fold is the minimum of the widths: it is one of
them, and it is below all of them (for a non-empty list of positive
widths). -/
theorem scaleW_mem_and_le (l : List ImgFile) (hne : l ≠ [])
    (hpos : ∀ f ∈ l, 0 < f.width) :
    (getMp4Dimensions l).scaleW ∈ l.map (fun f => f.width)
      ∧ ∀ w ∈ l.map (fun f => f.width), (getMp4Dimensions l).scaleW ≤ w := by
  match l, hne with
  | f :: fs, _ =>
    have hf : 0 < f.width := hpos f (List.mem_cons_self f fs)
    have h0 : jsMinFold (f :: fs) 0 = fs.foldl (fun min file => Nat.min min file.width) f.width := by
      show jsMinFold fs (if f.width < 0 ∨ (0 : Nat) = 0 then f.width else 0) = _
      rw [if_pos (Or.inr rfl)]
      exact jsMinFold_pos_eq_min fs f.width hf (fun g hg => hpos g (List.mem_cons_of_mem f hg))
    have hmap : fs.foldl (fun min file => Nat.min min file.width) f.width
        = (fs.map (fun f => f.width)).foldl Nat.min f.width := by
      rw [List.foldl_map]
    rw [getMp4Dimensions_scaleW_def, h0, hmap]
    constructor
    · rcases foldl_min_mem (fs.map (fun f => f.width)) f.width with h | h
      · rw [h]; exact List.mem_cons_self _ _
      · exact List.mem_cons_of_mem _ h
    · intro w hw
      rcases List.mem_cons.mp hw with h | h
      · subst h; exact foldl_min_le_start _ _
      · exact foldl_min_le_mem _ _ _ h

theorem le_foldl_max_start (l : List Nat) : ∀ a : Nat, a ≤ l.foldl Nat.max a := by
  induction l with
  | nil => intro a; exact Nat.le_refl a
  | cons x xs ih =>
    intro a
    exact Nat.le_trans (Nat.le_max_left a x) (ih (Nat.max a x))

theorem le_foldl_max_mem (l : List Nat) :
    ∀ a x : Nat, x ∈ l → x ≤ l.foldl Nat.max a := by
  induction l with
  | nil => intro a x hx; cases hx
  | cons y ys ih =>
    intro a x hx
    rcases List.mem_cons.mp hx with h | h
    · subst h
      exact Nat.le_trans (Nat.le_max_right a x) (le_foldl_max_start ys (Nat.max a x))
    · exact ih (Nat.max a y) x h

theorem foldl_max_mem (l : List Nat) :
    ∀ a : Nat, l.foldl Nat.max a = a ∨ l.foldl Nat.max a ∈ l := by
  induction l with
  | nil => intro a; exact Or.inl rfl
  | cons x xs ih =>
    intro a
    rcases ih (Nat.max a x) with h | h
    · rcases Nat.le_total a x with hax | hax
      · refine Or.inr ?_
        rw [List.foldl_cons, h]
        have hx : Nat.max a x = x := Nat.max_eq_right hax
        rw [hx]
        exact List.mem_cons_self x xs
      · refine Or.inl ?_
        rw [List.foldl_cons, h]
        exact Nat.max_eq_left hax
    · exact Or.inr (List.mem_cons_of_mem x h)

theorem foldl_if_gt_eq_max (g : ImgFile → Nat) (l : List ImgFile) :
    ∀ a : Nat, l.foldl (fun max file => if g file > max then g file else max) a
      = (l.map g).foldl Nat.max a := by
  induction l with
  | nil => intro a; rfl
  | cons f fs ih =>
    intro a
    have hstep : (if g f > a then g f else a) = Nat.max a (g f) := by
      rcases Nat.lt_or_ge a (g f) with h | h
      · simp [h, Nat.max_eq_right (Nat.le_of_lt h)]
      · have : ¬ g f > a := Nat.not_lt.mpr h
        simp [this, Nat.max_eq_left h]
    rw [List.map_cons, List.foldl_cons, List.foldl_cons, hstep, ih]

/-- The `padH` fold of the source, rewritten as a plain maximum fold over
the scaled heights. -/
theorem padH_as_max (l : List ImgFile) :
    (getMp4Dimensions l).padH =
      (l.map (fun f => ceilScale ((getMp4Dimensions l).scaleW) f.width f.height)).foldl Nat.max 0 + 2 := by
  rw [getMp4Dimensions_padH_def]
  rw [foldl_if_gt_eq_max (fun f => ceilScale (jsMinFold l 0) f.width f.height) l 0]
  rfl

theorem foldl_max_zero_eq_foldr (l : List Nat) :
    ∀ a : Nat, l.foldl Nat.max a = Nat.max a (l.foldr Nat.max 0) := by
  induction l with
  | nil => intro a; exact (Nat.max_zero a).symm
  | cons x xs ih =>
    intro a
    rw [List.foldl_cons, List.foldr_cons, ih (Nat.max a x)]
    exact Nat.max_assoc a x _

/-- Ceiling division over `Nat` agrees with the rational ceiling. -/
theorem nat_ceil_cast_div (a b : Nat) (hb : 0 < b) :
    ⌈(a : ℚ) / b⌉₊ = (a + b - 1) / b := by
  rcases Nat.eq_zero_or_pos a with ha | ha
  · subst ha
    have hlt : b - 1 < b := by omega
    simp [Nat.div_eq_of_lt hlt]
  · have hbq : (0 : ℚ) < b := by exact_mod_cast hb
    have hn1 : 1 ≤ (a + b - 1) / b := (Nat.one_le_div_iff hb).mpr (by omega)
    rw [Nat.ceil_eq_iff (by omega)]
    constructor
    · rw [lt_div_iff₀ hbq]
      have hmul : ((a + b - 1) / b) * b ≤ a + b - 1 := Nat.div_mul_le_self _ _
      have : ((a + b - 1) / b - 1) * b < a := by
        rw [Nat.sub_mul, Nat.one_mul]
        omega
      exact_mod_cast this
    · rw [div_le_iff₀ hbq]
      have hlt : a + b - 1 < ((a + b - 1) / b + 1) * b :=
        (Nat.div_lt_iff_lt_mul hb).mp (Nat.lt_succ_self _)
      have : a ≤ ((a + b - 1) / b) * b := by
        rw [Nat.succ_mul] at hlt
        omega
      exact_mod_cast this

/-- `ceilScale` is exactly the ceiling of `(scaleW / width) * height`. -/
theorem ceilScale_eq_ceil (s w h : Nat) (hw : 0 < w) :
    ceilScale s w h = ⌈((s : ℚ) / w) * h⌉₊ := by
  have hcast : ((s : ℚ) / w) * h = ((s * h : Nat) : ℚ) / w := by
    push_cast
    ring
  rw [hcast, nat_ceil_cast_div _ _ hw]
  rfl

/-! ### C1, C2, C8 -/

/-- C1: for every non-empty list of image descriptors whose widths are
all positive, `getMp4Dimensions` returns `scaleW` equal to the minimum
of the input widths. -/
theorem getMp4Dimensions_scaleW_eq_minimum (l : List ImgFile) (hne : l ≠ [])
    (hpos : ∀ f ∈ l, 0 < f.width) :
    (l.map (fun f => f.width)).minimum = ((getMp4Dimensions l).scaleW : WithTop Nat) :=
  List.minimum_eq_coe_iff.mpr (scaleW_mem_and_le l hne hpos)

/-- C1 witness at widths `[8, 3, 5]`. -/
theorem getMp4Dimensions_scaleW_eq_minimum_witness :
    (([ { path := "a", height := 2, width := 8, format := "png" },
        { path := "b", height := 2, width := 3, format := "png" },
        { path := "c", height := 2, width := 5, format := "png" } ] : List ImgFile).map
          (fun f => f.width)).minimum
      = ((getMp4Dimensions
          [ { path := "a", height := 2, width := 8, format := "png" },
            { path := "b", height := 2, width := 3, format := "png" },
            { path := "c", height := 2, width := 5, format := "png" } ]).scaleW : WithTop Nat) :=
  getMp4Dimensions_scaleW_eq_minimum _ (by decide) (by decide)

/-- C2: for every non-empty list of image descriptors with positive
widths, `padH` is the maximum over all images of
`ceil(scaleW / width * height)` plus 2 and `padW` is `scaleW + 2`;
and an image whose width is exactly `scaleW` contributes exactly its own
height. -/
theorem getMp4Dimensions_padH_padW_spec (l : List ImgFile) (hne : l ≠ [])
    (hpos : ∀ f ∈ l, 0 < f.width) :
    (getMp4Dimensions l).padH
        = (l.map (fun f => ⌈(((getMp4Dimensions l).scaleW : ℚ) / f.width) * f.height⌉₊)).foldr Nat.max 0 + 2
      ∧ (getMp4Dimensions l).padW = (getMp4Dimensions l).scaleW + 2
      ∧ ∀ f ∈ l, f.width = (getMp4Dimensions l).scaleW →
          ⌈(((getMp4Dimensions l).scaleW : ℚ) / f.width) * f.height⌉₊ = f.height := by
  refine ⟨?_, rfl, ?_⟩
  · have hz : ∀ n : Nat, Nat.max 0 n = n := fun n => Nat.max_eq_right (Nat.zero_le n)
    rw [padH_as_max, foldl_max_zero_eq_foldr, hz]
    congr 1
    refine congrArg (fun t => List.foldr Nat.max 0 t) ?_
    exact List.map_congr_left (fun f hf => ceilScale_eq_ceil _ _ _ (hpos f hf))
  · intro f hf hw
    have hfw : 0 < f.width := hpos f hf
    rw [← hw]
    have : ((f.width : ℚ)) ≠ 0 := by exact_mod_cast Nat.pos_iff_ne_zero.mp hfw
    rw [div_self this, one_mul, Nat.ceil_natCast]

/-- C2 witness at the spec's end-to-end example
(widths `[800, 600, 1000]`, heights `[600, 450, 750]`). -/
theorem getMp4Dimensions_padH_padW_spec_witness :
    (getMp4Dimensions
        [ { path := "a", height := 600, width := 800, format := "png" },
          { path := "b", height := 450, width := 600, format := "png" },
          { path := "c", height := 750, width := 1000, format := "png" } ]).padH
        = (([ { path := "a", height := 600, width := 800, format := "png" },
              { path := "b", height := 450, width := 600, format := "png" },
              { path := "c", height := 750, width := 1000, format := "png" } ] : List ImgFile).map
            (fun f => ⌈(((getMp4Dimensions
              [ { path := "a", height := 600, width := 800, format := "png" },
                { path := "b", height := 450, width := 600, format := "png" },
                { path := "c", height := 750, width := 1000, format := "png" } ]).scaleW : ℚ) / f.width) * f.height⌉₊)).foldr Nat.max 0 + 2
      ∧ (getMp4Dimensions
          [ { path := "a", height := 600, width := 800, format := "png" },
            { path := "b", height := 450, width := 600, format := "png" },
            { path := "c", height := 750, width := 1000, format := "png" } ]).padW
        = (getMp4Dimensions
          [ { path := "a", height := 600, width := 800, format := "png" },
            { path := "b", height := 450, width := 600, format := "png" },
            { path := "c", height := 750, width := 1000, format := "png" } ]).scaleW + 2
      ∧ ∀ f ∈ ([ { path := "a", height := 600, width := 800, format := "png" },
            { path := "b", height := 450, width := 600, format := "png" },
            { path := "c", height := 750, width := 1000, format := "png" } ] : List ImgFile),
          f.width = (getMp4Dimensions
            [ { path := "a", height := 600, width := 800, format := "png" },
              { path := "b", height := 450, width := 600, format := "png" },
              { path := "c", height := 750, width := 1000, format := "png" } ]).scaleW →
          ⌈(((getMp4Dimensions
            [ { path := "a", height := 600, width := 800, format := "png" },
              { path := "b", height := 450, width := 600, format := "png" },
              { path := "c", height := 750, width := 1000, format := "png" } ]).scaleW : ℚ) / f.width) * f.height⌉₊ = f.height :=
  getMp4Dimensions_padH_padW_spec _ (by decide) (by decide)

/-- C8: the dimension harmonizer is permutation-invariant on lists of
image descriptors with positive widths. -/
theorem getMp4Dimensions_perm_invariant (l₁ l₂ : List ImgFile) (hp : l₁.Perm l₂)
    (hpos : ∀ f ∈ l₁, 0 < f.width) :
    getMp4Dimensions l₁ = getMp4Dimensions l₂ := by
  have hpos₂ : ∀ f ∈ l₂, 0 < f.width := fun f hf => hpos f (hp.mem_iff.mpr hf)
  rcases eq_or_ne l₁ ([] : List ImgFile) with hnil | hne₁
  · subst hnil
    rw [List.perm_nil.mp hp.symm]
  · have hne₂' : l₂ ≠ [] := by
      intro h
      subst h
      exact hne₁ (List.perm_nil.mp hp)
    have hpm : (l₁.map (fun f => f.width)).Perm (l₂.map (fun f => f.width)) :=
      hp.map (fun f => f.width)
    have h₁ := scaleW_mem_and_le l₁ hne₁ hpos
    have h₂ := scaleW_mem_and_le l₂ hne₂' hpos₂
    have hs : (getMp4Dimensions l₁).scaleW = (getMp4Dimensions l₂).scaleW :=
      Nat.le_antisymm
        (h₁.2 _ (hpm.mem_iff.mpr h₂.1))
        (h₂.2 _ (hpm.mem_iff.mp h₁.1))
    have hmax : ∀ (g : ImgFile → Nat),
        (l₁.map g).foldl Nat.max 0 = (l₂.map g).foldl Nat.max 0 := by
      intro g
      have hgp : (l₁.map g).Perm (l₂.map g) := hp.map g
      refine Nat.le_antisymm ?_ ?_
      · rcases foldl_max_mem (l₁.map g) 0 with h | h
        · rw [h]; exact Nat.zero_le _
        · exact le_foldl_max_mem _ _ _ (hgp.mem_iff.mp h)
      · rcases foldl_max_mem (l₂.map g) 0 with h | h
        · rw [h]; exact Nat.zero_le _
        · exact le_foldl_max_mem _ _ _ (hgp.mem_iff.mpr h)
    have hh : (getMp4Dimensions l₁).padH = (getMp4Dimensions l₂).padH := by
      rw [padH_as_max, padH_as_max, hs, hmax]
    have hw : (getMp4Dimensions l₁).padW = (getMp4Dimensions l₂).padW := by
      rw [getMp4Dimensions_padW_def, getMp4Dimensions_padW_def, hs]
    cases hgd₁ : getMp4Dimensions l₁
    cases hgd₂ : getMp4Dimensions l₂
    simp_all

/-- C8 witness: a concrete transposition. -/
theorem getMp4Dimensions_perm_invariant_witness :
    getMp4Dimensions
        [ { path := "a", height := 4, width := 6, format := "png" },
          { path := "b", height := 9, width := 3, format := "png" } ]
      = getMp4Dimensions
        [ { path := "b", height := 9, width := 3, format := "png" },
          { path := "a", height := 4, width := 6, format := "png" } ] :=
  getMp4Dimensions_perm_invariant _ _ (by decide) (by decide)

/-! ### C5, C6 -/

/-- The scale filter option string: target width, height auto-computed
(`-1`) to preserve aspect ratio. -/
def scaleOpts (w : Nat) : String := toString w ++ ":-1"

/-- The pad filter option string: canvas `w × h`, scaled image placed at
offset `(x, y)`, filled with `color`. -/
def padOpts (w h : Nat) (x y : Int) (color : String) : String :=
  toString w ++ ":" ++ toString h ++ ":" ++ toString x ++ ":" ++ toString y ++ ":" ++ color

/-- C5: for every canvas spec, the encoder invoker builds the filter
chain in exactly the order scale (to `scaleW`, auto height) → pad (to
`padW × padH`, offset `x = 1`, `y = -1`, black fill) → pixel-format
conversion to `yuv420p`, sets the input cadence to `1/3` frames per
second (one frame per 3 seconds), and disables the audio track. -/
theorem setFfmpegInputOptions_filter_chain (pat : String) (scaleW padW padH : Nat) :
    (setFfmpegInputOptions (ffmpegNew pat) scaleW padW padH).videoFiltersVal
        = [ { filter := "scale", options := scaleOpts scaleW },
            { filter := "pad", options := padOpts padW padH 1 (-1) "black" },
            { filter := "format", options := "yuv420p" } ]
      ∧ (setFfmpegInputOptions (ffmpegNew pat) scaleW padW padH).inputFPSVal = some "1/3"
      ∧ (setFfmpegInputOptions (ffmpegNew pat) scaleW padW padH).audioDisabled = true := by
  refine ⟨?_, rfl, rfl⟩
  have hpad : ∀ a b : String,
      a ++ ":" ++ b ++ ":1:-1:black"
        = a ++ ":" ++ b ++ ":" ++ toString (1 : Int) ++ ":" ++ toString (-1 : Int) ++ ":" ++ "black" := by
    intro a b
    have h1 : toString (1 : Int) = "1" := rfl
    have h2 : toString (-1 : Int) = "-1" := rfl
    rw [h1, h2]
    rw [String.append_assoc (a ++ ":" ++ b) ":" "1",
        String.append_assoc (a ++ ":" ++ b) (":" ++ "1") ":",
        String.append_assoc (a ++ ":" ++ b) (":" ++ "1" ++ ":") "-1",
        String.append_assoc (a ++ ":" ++ b) (":" ++ "1" ++ ":" ++ "-1") ":",
        String.append_assoc (a ++ ":" ++ b) (":" ++ "1" ++ ":" ++ "-1" ++ ":") "black"]
    have h3 : (":" ++ "1" ++ ":" ++ "-1" ++ ":" ++ "black" : String) = ":1:-1:black" := rfl
    rw [h3]
  show [ { filter := "scale", options := toString scaleW ++ ":-1" },
         { filter := "pad", options := toString padW ++ ":" ++ toString padH ++ ":1:-1:black" },
         { filter := "format", options := "yuv420p" } ]
      = ([ { filter := "scale", options := scaleOpts scaleW },
           { filter := "pad", options := padOpts padW padH 1 (-1) "black" },
           { filter := "format", options := "yuv420p" } ] : List FfmpegFilter)
  rw [scaleOpts, padOpts, hpad]

/-- C6: invoking the public entry point with an empty image list fails
with the no-images error, with an empty I/O event trace (no metadata
extraction, normalization, or encoder invocation). -/
theorem mp4Generator_empty_no_io (α : Type) (w : World) (outputFilePath : String) :
    mp4Generator w ([] : List (UnmappedImgFile α)) outputFilePath
      = ([], .error "No images selected.") := rfl

/-! ### Sample worlds used by concrete runs -/

/-- A world in which every external call succeeds; Sharp reports format
`"png"` for every file. -/
def wAllOk : World :=
  { metadataOf := fun _ => .ok { width := 8, height := 6, format := "png" },
    convertResult := fun _ _ => .ok (),
    renameResult := fun _ _ => .ok (),
    encodeResult := fun _ _ => .ok () }

/-- A world in which Sharp reports format `"png"` everywhere and the
conversion of source file `tmp/b.png` fails with cause `boom`; all other
calls succeed. -/
def wFailB : World :=
  { metadataOf := fun _ => .ok { width := 8, height := 6, format := "png" },
    convertResult := fun src _ => if src = "tmp/b.png" then .error "boom" else .ok (),
    renameResult := fun _ _ => .ok (),
    encodeResult := fun _ _ => .ok () }

/-! ### C3 -/

/-- C3 (code bug): Sharp reports the JPEG format as the lowercase string
`"jpeg"`, but `isJpeg` compares against `"JPEG"`, so an image that is
already in the encoder's required input format is re-encoded (a
`convert` I/O action) instead of being renamed. -/
theorem isJpeg_rejects_sharp_jpeg_format :
    isJpeg { path := "tmp/a.jpg", height := 6, width := 8, format := "jpeg" } = false
      ∧ normalizeLoop wAllOk "tmp"
          [ { path := "tmp/a.jpg", height := 6, width := 8, format := "jpeg" } ] 0
        = ([Event.convert "tmp/a.jpg" "tmp/1.jpg"], .ok ())
      ∧ isJpeg { path := "tmp/a.jpg", height := 6, width := 8, format := "JPEG" } = true := by
  exact ⟨rfl, rfl, rfl⟩

/-! ### C4 -/

/-- The I/O event the loop performs for the image at 0-based position
`i`: a re-encode for non-JPEG formats, a rename otherwise, always
targeting `imgDir/(i+1).jpg`. -/
def stepEvent (imgDir : String) (i : Nat) (file : ImgFile) : Event :=
  if ¬ isJpeg file then
    Event.convert file.path (imgDir ++ "/" ++ toString (i + 1) ++ ".jpg")
  else
    Event.rename file.path (imgDir ++ "/" ++ toString (i + 1) ++ ".jpg")

/-- The sequence of per-image events for a batch started at counter `i`. -/
def seqEvents (imgDir : String) : List ImgFile → Nat → List Event
  | [], _ => []
  | file :: rest, i => stepEvent imgDir i file :: seqEvents imgDir rest (i + 1)

theorem stepRun_fst (w : World) (imgDir : String) (i : Nat) (file : ImgFile) :
    (stepRun w imgDir i file).1 = stepEvent imgDir i file := by
  by_cases h : isJpeg file <;> simp [stepRun, stepEvent, h, convertFileToJpegAndRename, renameJpeg]

theorem normalizeLoop_ok_events (w : World) (imgDir : String) (imgs : List ImgFile) :
    ∀ (i : Nat) (evs : List Event), normalizeLoop w imgDir imgs i = (evs, .ok ())
      → evs = seqEvents imgDir imgs i := by
  induction imgs with
  | nil =>
    intro i evs h
    rw [normalizeLoop] at h
    exact (congrArg Prod.fst h).symm
  | cons f fs ih =>
    intro i evs h
    rw [normalizeLoop] at h
    rcases hs : stepRun w imgDir i f with ⟨ev, r⟩
    rcases r with e | u
    · rw [hs] at h
      cases h
    · rw [hs] at h
      have hev : ev = stepEvent imgDir i f := by
        rw [← stepRun_fst w imgDir i f, hs]
      have h1 : ev :: (normalizeLoop w imgDir fs (i + 1)).1 = evs := congrArg Prod.fst h
      have h2 : (normalizeLoop w imgDir fs (i + 1)).2 = Except.ok () := congrArg Prod.snd h
      have hpair : normalizeLoop w imgDir fs (i + 1)
          = ((normalizeLoop w imgDir fs (i + 1)).1, Except.ok ()) := by
        rw [← h2]
      have h3 : (normalizeLoop w imgDir fs (i + 1)).1 = seqEvents imgDir fs (i + 1) :=
        ih (i + 1) _ hpair
      rw [seqEvents, ← hev, ← h1, h3]

theorem seqEvents_length (imgDir : String) (imgs : List ImgFile) :
    ∀ i : Nat, (seqEvents imgDir imgs i).length = imgs.length := by
  induction imgs with
  | nil => intro i; rfl
  | cons f fs ih => intro i; simp [seqEvents, ih (i + 1)]

theorem stepEvent_src (imgDir : String) (i : Nat) (file : ImgFile) :
    eventSrc (stepEvent imgDir i file) = some file.path := by
  by_cases h : isJpeg file <;> simp [stepEvent, eventSrc, h]

theorem stepEvent_dest (imgDir : String) (i : Nat) (file : ImgFile) :
    eventDest (stepEvent imgDir i file) = some (imgDir ++ "/" ++ toString (i + 1) ++ ".jpg") := by
  by_cases h : isJpeg file <;> simp [stepEvent, eventDest, h]

theorem seqEvents_map_src (imgDir : String) (imgs : List ImgFile) :
    ∀ i : Nat, (seqEvents imgDir imgs i).map eventSrc = imgs.map (fun f => some f.path) := by
  induction imgs with
  | nil => intro i; rfl
  | cons f fs ih =>
    intro i
    simp only [seqEvents, List.map_cons, stepEvent_src, ih (i + 1)]

theorem seqEvents_map_dest (imgDir : String) (imgs : List ImgFile) :
    ∀ i : Nat, (seqEvents imgDir imgs i).map eventDest
      = (List.range imgs.length).map
          (fun k => some (imgDir ++ "/" ++ toString (i + k + 1) ++ ".jpg")) := by
  induction imgs with
  | nil => intro i; rfl
  | cons f fs ih =>
    intro i
    rw [seqEvents, List.map_cons, stepEvent_dest, List.length_cons,
        List.range_succ_eq_map, List.map_cons, List.map_map, ih (i + 1)]
    refine congrArg (fun t => some (imgDir ++ "/" ++ toString (i + 1) ++ ".jpg") :: t) ?_
    refine List.map_congr_left ?_
    intro k _
    show some (imgDir ++ "/" ++ toString (i + 1 + k + 1) ++ ".jpg")
        = some (imgDir ++ "/" ++ toString (i + (k + 1) + 1) ++ ".jpg")
    rw [show i + 1 + k + 1 = i + (k + 1) + 1 from by omega]

/-- C4: when the normalization loop over a batch of `N` images succeeds,
it performs exactly `N` per-image file operations, in input order: the
operation at 0-based position `k` takes the image at position `k` of
the input list to the file `imgDir/(k+1).jpg` — consecutive names
`1..N`, fixed `.jpg` extension, no gaps or duplicates. -/
theorem normalizeLoop_ok_sequence (w : World) (imgDir : String) (imgs : List ImgFile)
    (evs : List Event) (h : normalizeLoop w imgDir imgs 0 = (evs, .ok ())) :
    evs.length = imgs.length
      ∧ evs = seqEvents imgDir imgs 0
      ∧ evs.map eventSrc = imgs.map (fun f => some f.path)
      ∧ evs.map eventDest
          = (List.range imgs.length).map
              (fun k => some (imgDir ++ "/" ++ toString (k + 1) ++ ".jpg")) := by
  have he : evs = seqEvents imgDir imgs 0 := normalizeLoop_ok_events w imgDir imgs 0 evs h
  subst he
  refine ⟨seqEvents_length imgDir imgs 0, rfl, seqEvents_map_src imgDir imgs 0, ?_⟩
  rw [seqEvents_map_dest imgDir imgs 0]
  refine List.map_congr_left ?_
  intro k _
  rw [show 0 + k + 1 = k + 1 from by omega]

/-- The concrete two-image batch used by the C4 witness. -/
def imgsC4 : List ImgFile :=
  [ { path := "d/a.png", height := 6, width := 8, format := "png" },
    { path := "d/b.jpg", height := 6, width := 8, format := "JPEG" } ]

/-- The events the loop performs on `imgsC4`. -/
def evsC4 : List Event :=
  [ Event.convert "d/a.png" "d/1.jpg", Event.rename "d/b.jpg" "d/2.jpg" ]

/-- C4 witness: a concrete successful two-image batch (one re-encoded,
one renamed). -/
theorem normalizeLoop_ok_sequence_witness :
    evsC4.length = imgsC4.length
      ∧ evsC4 = seqEvents "d" imgsC4 0
      ∧ evsC4.map eventSrc = imgsC4.map (fun f => some f.path)
      ∧ evsC4.map eventDest
          = (List.range imgsC4.length).map
              (fun k => some ("d" ++ "/" ++ toString (k + 1) ++ ".jpg")) :=
  normalizeLoop_ok_sequence wAllOk "d" imgsC4 evsC4 rfl

/-! ### C9 -/

/-- `mapToInterface`, expressed over the list of paths only. -/
def mapToInterfacePaths (w : World) (paths : List String) :
    List Event × Except String (List ImgFile) :=
  (paths.map Event.metadata,
   exceptAll (paths.map (fun path => toImgFileResult w path)))

theorem mapToInterface_eq_paths (w : World) (files : List (UnmappedImgFile α)) :
    mapToInterface w files = mapToInterfacePaths w (files.map (fun f => f.path)) := by
  rw [mapToInterface, mapToInterfacePaths, List.map_map, List.map_map]
  rfl

/-- `mp4Generator`, expressed over the list of paths only. -/
def mp4GeneratorPaths (w : World) (paths : List String) (outputFilePath : String) :
    List Event × Except String Unit :=
  if paths.length < 1 then
    ([], .error "No images selected.")
  else
    match mapToInterfacePaths w paths with
    | (mEvs, .error e) => (mEvs, .error e)
    | (mEvs, .ok imgFiles) =>
      let imgDir := getImgDir imgFiles.headI.path
      match normalizeLoop w imgDir imgFiles 0 with
      | (nEvs, .error e) => (mEvs ++ nEvs, .error e)
      | (nEvs, .ok _) =>
        let r := convertImagesToMp4 w imgFiles imgDir outputFilePath
        (mEvs ++ nEvs ++ r.1, r.2)

theorem mp4Generator_eq_paths (w : World) (files : List (UnmappedImgFile α))
    (outputFilePath : String) :
    mp4Generator w files outputFilePath
      = mp4GeneratorPaths w (files.map (fun f => f.path)) outputFilePath := by
  rw [mp4Generator, mp4GeneratorPaths, mapToInterface_eq_paths, List.length_map]

/-- C9: two-run noninterference at the entry point — for any two input
lists whose elements agree on the `path` field (and may differ
arbitrarily in every other caller-supplied field, including their
types), the pipeline's I/O event trace and result are identical: only
`path` is read from each input element. -/
theorem mp4Generator_reads_only_path {α β : Type} (w : World)
    (l₁ : List (UnmappedImgFile α)) (l₂ : List (UnmappedImgFile β))
    (outputFilePath : String)
    (h : l₁.map (fun f => f.path) = l₂.map (fun f => f.path)) :
    mp4Generator w l₁ outputFilePath = mp4Generator w l₂ outputFilePath := by
  rw [mp4Generator_eq_paths, mp4Generator_eq_paths, h]

/-- C9 witness: same path, different extra payloads of different types. -/
theorem mp4Generator_reads_only_path_witness :
    mp4Generator wAllOk [({ path := "tmp/a.png", extra := 37 } : UnmappedImgFile Nat)] "out.mp4"
      = mp4Generator wAllOk [({ path := "tmp/a.png", extra := true } : UnmappedImgFile Bool)] "out.mp4" :=
  mp4Generator_reads_only_path wAllOk _ _ "out.mp4" rfl

/-! ### C7 -/

theorem normalizeLoop_append_ok (w : World) (imgDir : String) (xs ys : List ImgFile) :
    ∀ (i : Nat) (evs : List Event), normalizeLoop w imgDir xs i = (evs, .ok ())
      → normalizeLoop w imgDir (xs ++ ys) i
          = (evs ++ (normalizeLoop w imgDir ys (i + xs.length)).1,
             (normalizeLoop w imgDir ys (i + xs.length)).2) := by
  induction xs with
  | nil =>
    intro i evs h
    rw [normalizeLoop] at h
    have hevs : ([] : List Event) = evs := congrArg Prod.fst h
    rw [List.nil_append, ← hevs, List.nil_append, List.length_nil, Nat.add_zero]
  | cons f fs ih =>
    intro i evs h
    rw [normalizeLoop] at h
    rw [List.cons_append, normalizeLoop]
    rcases hs : stepRun w imgDir i f with ⟨ev, r⟩
    rcases r with e | u
    · rw [hs] at h
      cases h
    · rw [hs] at h
      have h1 : ev :: (normalizeLoop w imgDir fs (i + 1)).1 = evs := congrArg Prod.fst h
      have h2 : (normalizeLoop w imgDir fs (i + 1)).2 = Except.ok () := congrArg Prod.snd h
      have hpair : normalizeLoop w imgDir fs (i + 1)
          = ((normalizeLoop w imgDir fs (i + 1)).1, Except.ok ()) := by
        rw [← h2]
      have hrec := ih (i + 1) _ hpair
      rw [hrec, ← h1]
      rw [List.cons_append, List.length_cons]
      rw [show i + 1 + fs.length = i + (fs.length + 1) from by omega]

theorem normalizeLoop_no_encode (w : World) (imgDir : String) (imgs : List ImgFile) :
    ∀ (i : Nat) (cmd : FfmpegCmd), Event.encode cmd ∉ (normalizeLoop w imgDir imgs i).1 := by
  induction imgs with
  | nil => intro i cmd h; cases h
  | cons f fs ih =>
    intro i cmd h
    rw [normalizeLoop] at h
    rcases hs : stepRun w imgDir i f with ⟨ev, r⟩
    have hev : ev = stepEvent imgDir i f := by
      rw [← stepRun_fst w imgDir i f, hs]
    have hne : ∀ c : FfmpegCmd, ev ≠ Event.encode c := by
      intro c
      rw [hev, stepEvent]
      by_cases hj : isJpeg f <;> simp [hj]
    rcases r with e | u
    · rw [hs] at h
      exact hne cmd (List.mem_singleton.mp h).symm
    · rw [hs] at h
      rcases List.mem_cons.mp h with hh | hh
      · exact hne cmd hh.symm
      · exact ih (i + 1) cmd hh

theorem exceptAll_ok_length :
    ∀ (l : List (Except String ImgFile)) (ys : List ImgFile),
      exceptAll l = .ok ys → ys.length = l.length := by
  intro l
  induction l with
  | nil =>
    intro ys h
    rw [exceptAll] at h
    rw [← Except.ok.inj h]
    rfl
  | cons x rest ih =>
    intro ys h
    rcases x with e | v
    · rw [exceptAll] at h
      cases h
    · rw [exceptAll] at h
      rcases hrest : exceptAll rest with e | zs
      · rw [hrest] at h
        cases h
      · rw [hrest] at h
        have hz : v :: zs = ys := Except.ok.inj h
        rw [← hz, List.length_cons, ih zs hrest, List.length_cons]

theorem mapToInterface_ok_length {α : Type} (w : World)
    (files : List (UnmappedImgFile α)) (mEvs : List Event) (imgs : List ImgFile)
    (hmap : mapToInterface w files = (mEvs, .ok imgs)) :
    imgs.length = files.length := by
  have h2 : (mapToInterface w files).2 = Except.ok imgs := by rw [hmap]
  rw [mapToInterface] at h2
  have := exceptAll_ok_length _ imgs h2
  rw [this, List.length_map]

/-- The event trace produced by `mapToInterface` is its metadata calls. -/
theorem mapToInterface_fst {α : Type} (w : World) (files : List (UnmappedImgFile α)) :
    (mapToInterface w files).1 = files.map (fun f => Event.metadata f.path) := rfl

/-- Reduction of `mp4Generator` in the branch where metadata extraction
succeeded and the normalization loop failed. -/
theorem mp4Generator_norm_error {α : Type} (w : World)
    (files : List (UnmappedImgFile α)) (outputFilePath : String)
    (mEvs nEvs : List Event) (imgs : List ImgFile) (e : String)
    (hmap : mapToInterface w files = (mEvs, .ok imgs))
    (hloop : normalizeLoop w (getImgDir imgs.headI.path) imgs 0 = (nEvs, .error e))
    (hlen : ¬ files.length < 1) :
    mp4Generator w files outputFilePath = (mEvs ++ nEvs, .error e) := by
  rw [mp4Generator, if_neg hlen, hmap]
  show (match normalizeLoop w (getImgDir imgs.headI.path) imgs 0 with
        | (nEvs, .error e) => (mEvs ++ nEvs, .error e)
        | (nEvs, .ok _) =>
          let r := convertImagesToMp4 w imgs (getImgDir imgs.headI.path) outputFilePath
          (mEvs ++ nEvs ++ r.1, r.2))
      = (mEvs ++ nEvs, .error e)
  rw [hloop]

/-- C7 (amended): if the normalization step of the image at (0-based)
position `pre.length` fails — every earlier step having succeeded — the
batch aborts at that image: the trace ends with that image's single file
operation (no operation is performed for any later image), the encoder
is never invoked (no `encode` event occurs, hence no output video is
written), and the surfaced error is exactly the failing step's error
(for a conversion failure, `Error converting image to jpeg: cause` —
a message that does not include the failing image's path). -/
theorem mp4Generator_aborts_on_step_failure {α : Type} (w : World)
    (files : List (UnmappedImgFile α)) (outputFilePath : String)
    (mEvs : List Event) (pre post : List ImgFile) (f : ImgFile)
    (evs : List Event) (e : String) (d : String)
    (hd : d = getImgDir (pre ++ f :: post).headI.path)
    (hmap : mapToInterface w files = (mEvs, .ok (pre ++ f :: post)))
    (hpre : normalizeLoop w d pre 0 = (evs, .ok ()))
    (hfail : (stepRun w d pre.length f).2 = .error e) :
    mp4Generator w files outputFilePath
        = (mEvs ++ (evs ++ [stepEvent d pre.length f]), .error e)
      ∧ ∀ cmd : FfmpegCmd,
          Event.encode cmd ∉ mEvs ++ (evs ++ [stepEvent d pre.length f]) := by
  have hlen : ¬ files.length < 1 := by
    have := mapToInterface_ok_length w files mEvs (pre ++ f :: post) hmap
    rw [List.length_append, List.length_cons] at this
    omega
  have hsr : stepRun w d pre.length f = (stepEvent d pre.length f, Except.error e) := by
    rw [← stepRun_fst w d pre.length f, ← hfail]
  have hloopf : normalizeLoop w d (f :: post) pre.length
      = ([stepEvent d pre.length f], Except.error e) := by
    rw [normalizeLoop, hsr]
  have hfull : normalizeLoop w d (pre ++ f :: post) 0
      = (evs ++ [stepEvent d pre.length f], Except.error e) := by
    rw [normalizeLoop_append_ok w d pre (f :: post) 0 evs hpre, Nat.zero_add, hloopf]
  constructor
  · exact mp4Generator_norm_error w files outputFilePath mEvs _ (pre ++ f :: post) e hmap
      (hd ▸ hfull) hlen
  · intro cmd hmem
    rcases List.mem_append.mp hmem with hm | hm
    · have hfst : mEvs = files.map (fun g => Event.metadata g.path) := by
        have := congrArg Prod.fst hmap
        rw [mapToInterface_fst] at this
        exact this.symm
      rw [hfst] at hm
      rcases List.mem_map.mp hm with ⟨g, _, hg⟩
      cases hg
    · have : Event.encode cmd ∈ (normalizeLoop w d (pre ++ f :: post) 0).1 := by
        rw [hfull]
        exact hm
      exact normalizeLoop_no_encode w d (pre ++ f :: post) 0 cmd this

/-- The concrete three-image batch used for C7: the conversion of the
second image fails in `wFailB`. -/
def filesC7 : List (UnmappedImgFile Unit) :=
  [ { path := "tmp/a.png", extra := () },
    { path := "tmp/b.png", extra := () },
    { path := "tmp/c.png", extra := () } ]

/-- C7 counterexample to the claim as stated: in the concrete failing
run, the error surfaced to the caller is literally
`Error converting image to jpeg: boom`, and the failing image's path
`tmp/b.png` does not occur in that message — the error does not report
the specific failing path.  (The trace also shows the batch aborted at
the second image and the encoder was never invoked.) -/
theorem mp4Generator_error_lacks_failing_path :
    mp4Generator wFailB filesC7 "out.mp4"
        = ([ Event.metadata "tmp/a.png", Event.metadata "tmp/b.png",
             Event.metadata "tmp/c.png",
             Event.convert "tmp/a.png" "tmp/1.jpg",
             Event.convert "tmp/b.png" "tmp/2.jpg" ],
           .error "Error converting image to jpeg: boom")
      ∧ ¬ ("tmp/b.png".data <:+: "Error converting image to jpeg: boom".data) := by
  exact ⟨rfl, by decide⟩

/-- C7 witness for the amended theorem: the concrete failing run of
`filesC7` in `wFailB`, discharging every hypothesis. -/
theorem mp4Generator_aborts_on_step_failure_witness :
    mp4Generator wFailB filesC7 "out.mp4"
        = ([ Event.metadata "tmp/a.png", Event.metadata "tmp/b.png",
             Event.metadata "tmp/c.png" ]
            ++ ([Event.convert "tmp/a.png" "tmp/1.jpg"]
                ++ [stepEvent "tmp" 1 { path := "tmp/b.png", height := 6, width := 8, format := "png" }]),
           .error "Error converting image to jpeg: boom")
      ∧ ∀ cmd : FfmpegCmd,
          Event.encode cmd ∉ [ Event.metadata "tmp/a.png", Event.metadata "tmp/b.png",
             Event.metadata "tmp/c.png" ]
            ++ ([Event.convert "tmp/a.png" "tmp/1.jpg"]
                ++ [stepEvent "tmp" 1 { path := "tmp/b.png", height := 6, width := 8, format := "png" }]) :=
  mp4Generator_aborts_on_step_failure wFailB filesC7 "out.mp4"
    [ Event.metadata "tmp/a.png", Event.metadata "tmp/b.png", Event.metadata "tmp/c.png" ]
    [ { path := "tmp/a.png", height := 6, width := 8, format := "png" } ]
    [ { path := "tmp/c.png", height := 6, width := 8, format := "png" } ]
    { path := "tmp/b.png", height := 6, width := 8, format := "png" }
    [ Event.convert "tmp/a.png" "tmp/1.jpg" ]
    "Error converting image to jpeg: boom" "tmp" rfl rfl rfl rfl

/-! ### C10 -/

theorem beforeLastSlash_of_not_mem :
    ∀ l : List Char, '/' ∉ l → beforeLastSlash l = [] := by
  intro l h
  cases l with
  | nil => rfl
  | cons c cs =>
    rw [beforeLastSlash, if_neg (fun hc => h (List.mem_cons_of_mem c hc))]

/-- A path containing no `'/'` yields the empty working directory
(JavaScript `lastIndexOf` returns `-1` and `substr(0, -1)` is `""`). -/
theorem getImgDir_no_slash (p : String) (h : ∀ c ∈ p.data, c ≠ '/') :
    getImgDir p = "" := by
  rw [getImgDir, beforeLastSlash_of_not_mem p.data (fun hc => h '/' hc rfl)]

theorem toImgFileResult_ok_path (w : World) (p : String) (img : ImgFile)
    (h : toImgFileResult w p = .ok img) :
    img.path = p := by
  rw [toImgFileResult] at h
  rcases hm : w.metadataOf p with e | m
  · rw [hm] at h
    cases h
  · rw [hm] at h
    rw [← Except.ok.inj h]

theorem exceptAll_ok_cons (x : Except String ImgFile) (rest : List (Except String ImgFile))
    (ys : List ImgFile) (h : exceptAll (x :: rest) = .ok ys) :
    ∃ v zs, x = .ok v ∧ exceptAll rest = .ok zs ∧ ys = v :: zs := by
  rcases x with e | v
  · rw [exceptAll] at h
    cases h
  · rw [exceptAll] at h
    rcases hrest : exceptAll rest with e | zs
    · rw [hrest] at h
      cases h
    · rw [hrest] at h
      exact ⟨v, zs, rfl, rfl, (Except.ok.inj h).symm⟩

theorem mapToInterface_ok_map_path {α : Type} (w : World) :
    ∀ (files : List (UnmappedImgFile α)) (mEvs : List Event) (imgs : List ImgFile),
      mapToInterface w files = (mEvs, .ok imgs)
        → imgs.map (fun f => f.path) = files.map (fun f => f.path) := by
  intro files
  induction files with
  | nil =>
    intro mEvs imgs h
    have h2 : (mapToInterface w ([] : List (UnmappedImgFile α))).2 = Except.ok imgs := by
      rw [h]
    rw [← Except.ok.inj h2]
    rfl
  | cons g gs ih =>
    intro mEvs imgs h
    have h2 : (mapToInterface w (g :: gs)).2 = Except.ok imgs := by rw [h]
    rw [mapToInterface, List.map_cons] at h2
    rcases exceptAll_ok_cons _ _ _ h2 with ⟨v, zs, hv, hrest, hys⟩
    have hzs : mapToInterface w gs = ((mapToInterface w gs).1, Except.ok zs) := by
      have : (mapToInterface w gs).2 = Except.ok zs := hrest
      rw [← this]
    have htail := ih (mapToInterface w gs).1 zs hzs
    have hhead : v.path = g.path := toImgFileResult_ok_path w g.path v hv
    rw [hys, List.map_cons, List.map_cons, hhead, htail]

theorem normalizeLoop_dest_shape (w : World) (d : String) (imgs : List ImgFile) :
    ∀ (i : Nat) (ev : Event), ev ∈ (normalizeLoop w d imgs i).1 →
      ∀ dest : String, eventDest ev = some dest →
        ∃ n : Nat, dest = d ++ "/" ++ toString n ++ ".jpg" := by
  induction imgs with
  | nil => intro i ev h; cases h
  | cons f fs ih =>
    intro i ev h dest hdest
    rw [normalizeLoop] at h
    rcases hs : stepRun w d i f with ⟨ev0, r⟩
    have hev0 : ev0 = stepEvent d i f := by
      rw [← stepRun_fst w d i f, hs]
    have hhead : ev = ev0 → ∃ n : Nat, dest = d ++ "/" ++ toString n ++ ".jpg" := by
      intro he
      refine ⟨i + 1, ?_⟩
      have : eventDest ev = some (d ++ "/" ++ toString (i + 1) ++ ".jpg") := by
        rw [he, hev0, stepEvent_dest]
      rw [this] at hdest
      exact (Option.some.inj hdest).symm
    rcases r with e | u
    · rw [hs] at h
      exact hhead (List.mem_singleton.mp h)
    · rw [hs] at h
      rcases List.mem_cons.mp h with hh | hh
      · exact hhead hh
      · exact ih (i + 1) ev hh dest hdest

/-- Reduction of `mp4Generator` in the branch where metadata extraction
failed. -/
theorem mp4Generator_meta_error {α : Type} (w : World)
    (files : List (UnmappedImgFile α)) (outputFilePath : String)
    (mEvs : List Event) (e : String)
    (hmap : mapToInterface w files = (mEvs, .error e))
    (hlen : ¬ files.length < 1) :
    mp4Generator w files outputFilePath = (mEvs, .error e) := by
  rw [mp4Generator, if_neg hlen, hmap]

/-- Reduction of `mp4Generator` in the branch where metadata extraction
and the normalization loop both succeeded. -/
theorem mp4Generator_norm_ok {α : Type} (w : World)
    (files : List (UnmappedImgFile α)) (outputFilePath : String)
    (mEvs nEvs : List Event) (imgs : List ImgFile)
    (hmap : mapToInterface w files = (mEvs, .ok imgs))
    (hloop : normalizeLoop w (getImgDir imgs.headI.path) imgs 0 = (nEvs, .ok ()))
    (hlen : ¬ files.length < 1) :
    mp4Generator w files outputFilePath
      = (mEvs ++ nEvs
          ++ (convertImagesToMp4 w imgs (getImgDir imgs.headI.path) outputFilePath).1,
         (convertImagesToMp4 w imgs (getImgDir imgs.headI.path) outputFilePath).2) := by
  rw [mp4Generator, if_neg hlen, hmap]
  show (match normalizeLoop w (getImgDir imgs.headI.path) imgs 0 with
        | (nEvs, .error e) => (mEvs ++ nEvs, .error e)
        | (nEvs, .ok _) =>
          let r := convertImagesToMp4 w imgs (getImgDir imgs.headI.path) outputFilePath
          (mEvs ++ nEvs ++ r.1, r.2))
      = (mEvs ++ nEvs
          ++ (convertImagesToMp4 w imgs (getImgDir imgs.headI.path) outputFilePath).1,
         (convertImagesToMp4 w imgs (getImgDir imgs.headI.path) outputFilePath).2)
  rw [hloop]

theorem convertImagesToMp4_fst (w : World) (imgs : List ImgFile) (dir out : String) :
    (convertImagesToMp4 w imgs dir out).1
      = [Event.encode ((setFfmpegInputOptions (ffmpegNew (dir ++ "/%d.jpg"))
          (getMp4Dimensions imgs).scaleW (getMp4Dimensions imgs).padW
          (getMp4Dimensions imgs).padH).output out)] := rfl

theorem encodeCmd_input (p o : String) (a b c : Nat) :
    ((setFfmpegInputOptions (ffmpegNew p) a b c).output o).input = p := rfl

/-- C10: the working directory of every per-image file operation, and
the encoder's input pattern, are derived solely from the first image's
path as the substring before its last `'/'`; a first path with no `'/'`
yields the empty directory (so files land at paths like `/1.jpg`). -/
theorem mp4Generator_workdir_from_first_path {α : Type} (w : World)
    (f₀ : UnmappedImgFile α) (rest : List (UnmappedImgFile α)) (outputFilePath : String) :
    (∀ ev ∈ (mp4Generator w (f₀ :: rest) outputFilePath).1,
        (∀ dest : String, eventDest ev = some dest →
            ∃ n : Nat, dest = getImgDir f₀.path ++ "/" ++ toString n ++ ".jpg")
          ∧ ∀ cmd : FfmpegCmd, ev = Event.encode cmd →
              cmd.input = getImgDir f₀.path ++ "/%d.jpg")
      ∧ ∀ p : String, (∀ c ∈ p.data, c ≠ '/') → getImgDir p = "" := by
  refine ⟨?_, getImgDir_no_slash⟩
  have hlen : ¬ (f₀ :: rest).length < 1 := by
    rw [List.length_cons]
    omega
  have hmeta : ∀ ev ∈ (mapToInterface w (f₀ :: rest)).1,
      eventDest ev = none ∧ ∀ cmd : FfmpegCmd, ev ≠ Event.encode cmd := by
    intro ev hev
    rw [mapToInterface_fst] at hev
    rcases List.mem_map.mp hev with ⟨g, _, hg⟩
    rw [← hg]
    exact ⟨rfl, fun cmd h => by cases h⟩
  rcases hm : mapToInterface w (f₀ :: rest) with ⟨mEvs, mRes⟩
  have hmEvs : ∀ ev ∈ mEvs,
      eventDest ev = none ∧ ∀ cmd : FfmpegCmd, ev ≠ Event.encode cmd := by
    intro ev hev
    refine hmeta ev ?_
    rw [hm]
    exact hev
  rcases mRes with e | imgs
  · intro ev hev
    rw [mp4Generator_meta_error w (f₀ :: rest) outputFilePath mEvs e hm hlen] at hev
    rcases hmEvs ev hev with ⟨hd, hnc⟩
    constructor
    · intro dest hdest
      rw [hd] at hdest
      cases hdest
    · intro cmd hcmd
      exact absurd hcmd (hnc cmd)
  · have hpaths := mapToInterface_ok_map_path w (f₀ :: rest) mEvs imgs hm
    have hhead : imgs.headI.path = f₀.path := by
      cases imgs with
      | nil =>
        rw [List.map_nil, List.map_cons] at hpaths
        cases hpaths
      | cons i₀ irest =>
        rw [List.map_cons, List.map_cons] at hpaths
        have := List.cons.inj hpaths
        exact this.1
    rcases hl : normalizeLoop w (getImgDir imgs.headI.path) imgs 0 with ⟨nEvs, nRes⟩
    have hnEvs : ∀ ev ∈ nEvs,
        (∀ dest : String, eventDest ev = some dest →
            ∃ n : Nat, dest = getImgDir f₀.path ++ "/" ++ toString n ++ ".jpg")
          ∧ ∀ cmd : FfmpegCmd, ev ≠ Event.encode cmd := by
      intro ev hev
      have hev' : ev ∈ (normalizeLoop w (getImgDir imgs.headI.path) imgs 0).1 := by
        rw [hl]
        exact hev
      constructor
      · intro dest hdest
        have := normalizeLoop_dest_shape w (getImgDir imgs.headI.path) imgs 0 ev hev' dest hdest
        rw [hhead] at this
        exact this
      · intro cmd hcmd
        exact normalizeLoop_no_encode w (getImgDir imgs.headI.path) imgs 0 cmd (hcmd ▸ hev')
    rcases nRes with e | u
    · intro ev hev
      rw [mp4Generator_norm_error w (f₀ :: rest) outputFilePath mEvs nEvs imgs e hm hl hlen] at hev
      rcases List.mem_append.mp hev with hh | hh
      · rcases hmEvs ev hh with ⟨hd, hnc⟩
        refine ⟨fun dest hdest => ?_, fun cmd hcmd => absurd hcmd (hnc cmd)⟩
        rw [hd] at hdest
        cases hdest
      · rcases hnEvs ev hh with ⟨hdst, hnc⟩
        exact ⟨hdst, fun cmd hcmd => absurd hcmd (hnc cmd)⟩
    · intro ev hev
      rw [mp4Generator_norm_ok w (f₀ :: rest) outputFilePath mEvs nEvs imgs hm hl hlen,
          convertImagesToMp4_fst] at hev
      rcases List.mem_append.mp hev with hh | hh
      · rcases List.mem_append.mp hh with hh2 | hh2
        · rcases hmEvs ev hh2 with ⟨hd, hnc⟩
          refine ⟨fun dest hdest => ?_, fun cmd hcmd => absurd hcmd (hnc cmd)⟩
          rw [hd] at hdest
          cases hdest
        · rcases hnEvs ev hh2 with ⟨hdst, hnc⟩
          exact ⟨hdst, fun cmd hcmd => absurd hcmd (hnc cmd)⟩
      · have hev2 : ev = Event.encode ((setFfmpegInputOptions
            (ffmpegNew (getImgDir imgs.headI.path ++ "/%d.jpg"))
            (getMp4Dimensions imgs).scaleW (getMp4Dimensions imgs).padW
            (getMp4Dimensions imgs).padH).output outputFilePath) :=
          List.mem_singleton.mp hh
        constructor
        · intro dest hdest
          rw [hev2] at hdest
          cases hdest
        · intro cmd hcmd
          rw [hev2] at hcmd
          have := Event.encode.inj hcmd
          rw [← this, encodeCmd_input, hhead]

/-- C10 witness: a single image whose path has no slash — its file
operation targets `/1.jpg` inside the empty derived directory. -/
theorem mp4Generator_workdir_from_first_path_witness :
    (∃ n : Nat, "/1.jpg" = getImgDir "a.jpg" ++ "/" ++ toString n ++ ".jpg")
      ∧ getImgDir "abc" = "" :=
  ⟨((mp4Generator_workdir_from_first_path wAllOk
        ({ path := "a.jpg", extra := () } : UnmappedImgFile Unit) [] "out.mp4").1
      (Event.convert "a.jpg" "/1.jpg") (by decide)).1 "/1.jpg" rfl,
   (mp4Generator_workdir_from_first_path wAllOk
        ({ path := "a.jpg", extra := () } : UnmappedImgFile Unit) [] "out.mp4").2
      "abc" (by decide)⟩

end Mp4Gen
